import Mathlib

/-!
Verification of the asset-register binary codec.

The development shallowly embeds the reading and writing routines of the codec.
Byte streams are modelled as `List Nat` (each element one byte of the
stream), Rust `String` values as lists of Unicode scalar values, and every
fallible operation returns `Except Err`.  A dedicated `Err.panicked`
constructor marks the places where the original code would panic
(a failed `assert!`, an `unwrap` of `None`, or an arithmetic overflow in a
checked build) as opposed to returning an error value.
-/

deriving instance DecidableEq for Except

namespace AssetReg

/-- Outcomes of a failed decode or encode: end of input, a tagged error
message, invalid UTF-8, invalid UTF-16, or a panic of the original code. -/
inductive Err where
  | eof : Err
  | msg : String → Err
  | utf8Err : Err
  | utf16Err : Err
  | panicked : Err
deriving DecidableEq

/-- Reads one byte from the stream.  A genuine byte source only ever
delivers values below 256, which the reduction modulo 256 enforces. -/
def readU8 : List Nat → Except Err (Nat × List Nat)
  | [] => .error .eof
  | b :: rest => .ok (b % 256, rest)

/-- Reads exactly `n` bytes, mirroring `Read::read_exact`. -/
def readExact (n : Nat) (input : List Nat) : Except Err (List Nat × List Nat) :=
  if n ≤ input.length then .ok ((input.take n).map (· % 256), input.drop n)
  else .error .eof

/-- Reads a little-endian `u16`. -/
def readU16 (input : List Nat) : Except Err (Nat × List Nat) := do
  let (b0, r0) ← readU8 input
  let (b1, r1) ← readU8 r0
  .ok (b0 + 256 * b1, r1)

/-- Reads a little-endian `u32`. -/
def readU32 (input : List Nat) : Except Err (Nat × List Nat) := do
  let (lo, r0) ← readU16 input
  let (hi, r1) ← readU16 r0
  .ok (lo + 65536 * hi, r1)

/-- Reads a little-endian `u64`. -/
def readU64 (input : List Nat) : Except Err (Nat × List Nat) := do
  let (lo, r0) ← readU32 input
  let (hi, r1) ← readU32 r0
  .ok (lo + 4294967296 * hi, r1)

/-- Reads a little-endian `i32`; the value is returned as a mathematical
integer in `[-2^31, 2^31)`. -/
def readI32 (input : List Nat) : Except Err (Int × List Nat) := do
  let (v, r) ← readU32 input
  .ok (if v < 2 ^ 31 then (v : Int) else (v : Int) - 2 ^ 32, r)

/-- Little-endian bytes of a `u16` value. -/
def u16le (n : Nat) : List Nat := [n % 256, n / 256 % 256]

/-- Little-endian bytes of a `u32` value. -/
def u32le (n : Nat) : List Nat :=
  [n % 256, n / 256 % 256, n / 65536 % 256, n / 16777216 % 256]

/-- Little-endian bytes of a `u64` value. -/
def u64le (n : Nat) : List Nat := u32le (n % 4294967296) ++ u32le (n / 4294967296)

/-- Little-endian bytes of an `i32` value in twos-complement form. -/
def i32le (n : Int) : List Nat := u32le ((n % (2 ^ 32 : Int)).toNat)

/-- Wraps an integer into the `i32` value range, as a Rust `as i32` cast does. -/
def wrapI32 (n : Int) : Int := (n + 2 ^ 31) % 2 ^ 32 - 2 ^ 31

/-- Interpretation of `(-n) as usize` evaluated on an `i32` in a build with
wrapping arithmetic: the negation wraps inside `i32` first and the result is
then sign-extended into the 64-bit unsigned range. -/
def i32NegToUsize (n : Int) : Nat :=
  let m := wrapI32 (-n)
  (if m < 0 then m + 2 ^ 64 else m).toNat

/-- Reads `count` consecutive records with the element reader `f`,
mirroring `read_array`. -/
def readArrayP (count : Nat) (f : List Nat → Except Err (α × List Nat))
    (input : List Nat) : Except Err (List α × List Nat) :=
  match count with
  | 0 => .ok ([], input)
  | n + 1 => do
    let (x, r) ← f input
    let (xs, r2) ← readArrayP n f r
    .ok (x :: xs, r2)

/-- Tests whether every code point of a string is below `U+0080`; on a Rust
`String` this agrees with `str::is_ascii`. -/
def isAsciiStr (s : List Nat) : Bool := s.all (· < 128)

/-- UTF-8 encoding of one Unicode scalar value. -/
def utf8EncodeChar (c : Nat) : List Nat :=
  if c < 0x80 then [c]
  else if c < 0x800 then [0xC0 + c / 0x40, 0x80 + c % 0x40]
  else if c < 0x10000 then
    [0xE0 + c / 0x1000, 0x80 + c / 0x40 % 0x40, 0x80 + c % 0x40]
  else
    [0xF0 + c / 0x40000, 0x80 + c / 0x1000 % 0x40, 0x80 + c / 0x40 % 0x40,
      0x80 + c % 0x40]

/-- UTF-8 encoding of a string; this models `str::as_bytes` on a Rust
`String` holding the same sequence of scalar values. -/
def utf8Encode (s : List Nat) : List Nat := (s.map utf8EncodeChar).flatten

/-- Byte length of the UTF-8 form of a string, modelling `str::len`. -/
def utf8ByteLen (s : List Nat) : Nat := (utf8Encode s).length

/-- Continuation-byte test of the UTF-8 validation. -/
def utf8IsCont (x : Nat) : Bool := 0x80 ≤ x && x < 0xC0

/-- Consumes one UTF-8 encoded scalar value from the front of the stream,
with the validation performed by `String::from_utf8`: stray continuation
bytes and overlong lead bytes (below `0xC2`), overlong three- and four-byte
forms, surrogate code points (lead `0xED` with a second byte at `0xA0` or
above) and values above `U+10FFFF` (lead bytes above `0xF4`) are all
rejected. -/
def utf8DecodeHead (b : Nat) (rest : List Nat) : Except Err (Nat × List Nat) :=
  if b < 0x80 then .ok (b, rest)
  else if b < 0xE0 then
    match rest with
    | b1 :: r =>
      if 0xC2 ≤ b && utf8IsCont b1 then
        .ok ((b - 0xC0) * 0x40 + (b1 - 0x80), r)
      else .error .utf8Err
    | [] => .error .utf8Err
  else if b < 0xF0 then
    match rest with
    | b1 :: b2 :: r =>
      if (if b = 0xE0 then 0xA0 ≤ b1 && b1 < 0xC0
          else if b = 0xED then 0x80 ≤ b1 && b1 < 0xA0
          else utf8IsCont b1) && utf8IsCont b2 then
        .ok ((b - 0xE0) * 0x1000 + (b1 - 0x80) * 0x40 + (b2 - 0x80), r)
      else .error .utf8Err
    | _ => .error .utf8Err
  else
    match rest with
    | b1 :: b2 :: b3 :: r =>
      if b < 0xF5 &&
          (if b = 0xF0 then 0x90 ≤ b1 && b1 < 0xC0
           else if b = 0xF4 then 0x80 ≤ b1 && b1 < 0x90
           else utf8IsCont b1) && utf8IsCont b2 && utf8IsCont b3 then
        .ok ((b - 0xF0) * 0x40000 + (b1 - 0x80) * 0x1000 + (b2 - 0x80) * 0x40 +
          (b3 - 0x80), r)
      else .error .utf8Err
    | _ => .error .utf8Err

/-- Recursion of the UTF-8 decoder, written with an explicit fuel argument
so that the recursion is structural.  Each step consumes at least one byte,
so fuel equal to the byte count never runs out. -/
def utf8DecodeFuel : Nat → List Nat → Except Err (List Nat)
  | _, [] => .ok []
  | 0, _ :: _ => .error .utf8Err
  | fuel + 1, b :: rest => do
    let (c, r) ← utf8DecodeHead b rest
    let tail ← utf8DecodeFuel fuel r
    .ok (c :: tail)

/-- Validating UTF-8 decoder modelling `String::from_utf8`. -/
def utf8Decode (l : List Nat) : Except Err (List Nat) :=
  utf8DecodeFuel l.length l

/-- UTF-16 encoding of one Unicode scalar value, as a list of 16-bit units. -/
def utf16EncodeChar (c : Nat) : List Nat :=
  if c < 0x10000 then [c]
  else [0xD800 + (c - 0x10000) / 0x400, 0xDC00 + (c - 0x10000) % 0x400]

/-- UTF-16 code units of a string, modelling `str::encode_utf16`. -/
def utf16Encode (s : List Nat) : List Nat := (s.map utf16EncodeChar).flatten

/-- Validating UTF-16 decoder over 16-bit units, modelling
`String::from_utf16`: surrogate pairs are combined, lone surrogates are
rejected. -/
def utf16Decode : List Nat → Except Err (List Nat)
  | [] => .ok []
  | u :: rest =>
    if u < 0xD800 ∨ 0xE000 ≤ u then do
      let tail ← utf16Decode rest
      .ok (u :: tail)
    else if u < 0xDC00 then
      match rest with
      | u2 :: rest2 =>
        if 0xDC00 ≤ u2 ∧ u2 < 0xE000 then do
          let tail ← utf16Decode rest2
          .ok ((0x10000 + (u - 0xD800) * 0x400 + (u2 - 0xDC00)) :: tail)
        else .error .utf16Err
      | [] => .error .utf16Err
    else .error .utf16Err

/-- Groups a byte list into little-endian 16-bit units two bytes at a time. -/
def pairUnitsLE : List Nat → List Nat
  | b0 :: b1 :: rest => (b0 + 256 * b1) :: pairUnitsLE rest
  | _ => []

/-- Models `String::from_utf16le` on a raw byte buffer: an odd byte count is
an error, otherwise the bytes are paired into units and decoded as UTF-16. -/
def utf16leDecodeBytes (buf : List Nat) : Except Err (List Nat) :=
  if buf.length % 2 ≠ 0 then .error .utf16Err
  else utf16Decode (pairUnitsLE buf)

/-- Name reference record: an index into an external name table plus an
instance number, from `unreal_types/fname.rs`. -/
structure FName where
  index : Nat
  number : Nat
deriving DecidableEq

/-- Serialization of `FName::write`: two little-endian `u32` fields. -/
def fnameWrite (n : FName) : List Nat := u32le n.index ++ u32le n.number

/-- Deserialization of `FName::read`. -/
def fnameRead (input : List Nat) : Except Err (FName × List Nat) := do
  let (index, r0) ← readU32 input
  let (number, r1) ← readU32 r0
  .ok ({ index := index, number := number }, r1)

/-- Key/value pair record from `unreal_types/fnumbered_pair.rs`: a name
reference key and a raw packed value reference. -/
structure FNumberedPair where
  key : FName
  value : Nat
deriving DecidableEq

/-- Serialization of `FNumberedPair::write`. -/
def fnumberedPairWrite (p : FNumberedPair) : List Nat :=
  fnameWrite p.key ++ u32le p.value

/-- Deserialization of `FNumberedPair::read`: the 32-bit packed value is
stored verbatim, with no inspection of its low 3 bits. -/
def fnumberedPairRead (input : List Nat) : Except Err (FNumberedPair × List Nat) := do
  let (key, r0) ← fnameRead input
  let (value, r1) ← readU32 r0
  .ok ({ key := key, value := value }, r1)

/-- Export path record from `unreal_types/fasset_registry_export_path.rs`:
three name references in (class, object, package) order. -/
structure FAssetRegistryExportPath where
  cls : FName
  object : FName
  package : FName
deriving DecidableEq

/-- Serialization of `FAssetRegistryExportPath::write`. -/
def fexportPathWrite (p : FAssetRegistryExportPath) : List Nat :=
  fnameWrite p.cls ++ fnameWrite p.object ++ fnameWrite p.package

/-- Deserialization of `FAssetRegistryExportPath::read`. -/
def fexportPathRead (input : List Nat) :
    Except Err (FAssetRegistryExportPath × List Nat) := do
  let (cls, r0) ← fnameRead input
  let (object, r1) ← fnameRead r0
  let (package, r2) ← fnameRead r1
  .ok ({ cls := cls, object := object, package := package }, r2)

/-- Rich text blob from `unreal_types/ftext.rs`: a raw byte buffer that is
expected to end in a NUL byte. -/
structure FText where
  raw : List Nat
deriving DecidableEq

/-- Serialization of `FText::write`: the buffer length as `u32` followed by
the raw bytes. -/
def ftextWrite (t : FText) : List Nat := u32le t.raw.length ++ t.raw

/-- Deserialization of `FText::read`.  The guard compares the length against
`isize::MAX as u32`, which truncates to `0xFFFFFFFF`; a zero length makes
`buf.last().unwrap()` panic on the empty buffer, which the model records as
`Err.panicked`. -/
def ftextRead (input : List Nat) : Except Err (FText × List Nat) := do
  let (len, r0) ← readU32 input
  if 0xFFFFFFFF ≤ len then .error (.msg "FText string length too large")
  else do
    let (buf, r1) ← readExact len r0
    match buf.getLast? with
    | none => .error .panicked
    | some last =>
      if last ≠ 0 then .error (.msg "FText string is not NUL-terminated")
      else .ok ({ raw := buf }, r1)

/-- Variable-width string from `unreal_types/fstring.rs`, holding the
decoded text as Unicode scalar values. -/
structure FString where
  inner : List Nat
deriving DecidableEq

/-- Serialization of `FString::write`: an ASCII string is written as the
`u32` value `byte_len + 1`, the raw bytes, and a NUL byte; any other string
is written as the `i32` value `-(2 * unit_count + 1)`, the UTF-16 code units
in little endian, and a single NUL byte. -/
def fstringWrite (f : FString) : List Nat :=
  (if isAsciiStr f.inner then
    u32le (utf8ByteLen f.inner % 2 ^ 32 + 1) ++ utf8Encode f.inner
  else
    let units := utf16Encode f.inner
    i32le (-((2 * units.length : Nat) + 1 : Int)) ++ (units.map u16le).flatten)
  ++ [0]

/-- Deserialization of `FString::read`. -/
def fstringRead (input : List Nat) : Except Err (FString × List Nat) := do
  let (n, r0) ← readI32 input
  if 0 < n then do
    let (buf, r1) ← readExact (n.toNat - 1) r0
    let (nul, r2) ← readU8 r1
    if nul ≠ 0 then .error (.msg "FString not NUL-terminated")
    else do
      let s ← utf8Decode buf
      .ok ({ inner := s }, r2)
  else if n = 0 then .error (.msg "FString length cannot be 0")
  else
    let len := i32NegToUsize n
    if (len - 1) % 2 ≠ 0 then
      .error (.msg "len without NUL byte not a multiple of 2")
    else do
      let (buf, r1) ← readExact (len - 1) r0
      let (nul, r2) ← readU8 r1
      if nul ≠ 0 then .error (.msg "FString not NUL-terminated")
      else do
        let s ← utf16Decode (pairUnitsLE buf)
        .ok ({ inner := s }, r2)

/-- Bit-packed name header from `serialized_name_header.rs`. -/
structure SerializedNameHeader where
  is_utf16 : Bool
  len : Nat
deriving DecidableEq

/-- Byte width described by a header, modelling
`SerializedNameHeader::n_bytes`. -/
def SerializedNameHeader.n_bytes (h : SerializedNameHeader) : Nat :=
  match h.is_utf16 with
  | true => h.len % 2 ^ 16 * 2
  | false => h.len % 2 ^ 16

/-- Serialization of `SerializedNameHeader::write`: the width flag lands in
the top bit of the first byte, the 15-bit length is split big-endian across
the remainder. -/
def serializedNameHeaderWrite (h : SerializedNameHeader) : List Nat :=
  [((cond h.is_utf16 1 0) * 128 ||| h.len % 2 ^ 16 / 256) % 256, h.len % 256]

/-- Deserialization of `SerializedNameHeader::read`. -/
def serializedNameHeaderRead (input : List Nat) :
    Except Err (SerializedNameHeader × List Nat) := do
  let (b0, r0) ← readU8 input
  let (b1, r1) ← readU8 r0
  .ok ({ is_utf16 := decide (b0 &&& 128 ≠ 0), len := (b0 &&& 127) * 256 + b1 }, r1)

/-- Deduplicated name table from `names_batch.rs`. -/
structure NamesBatch where
  hash_version : Nat
  hashes : List Nat
  headers : List SerializedNameHeader
  strings : List (List Nat)
deriving DecidableEq

/-- Serialization of `NamesBatch::write`.  The two `assert_eq!` calls on the
parallel array lengths are modelled as a panic outcome.  Every string is
written as its UTF-8 bytes followed by one NUL byte, regardless of what the
corresponding header says, and the declared total counts `byte_len + 1` per
string. -/
def namesBatchWrite (b : NamesBatch) : Except Err (List Nat) :=
  if b.hashes.length ≠ b.headers.length then .error .panicked
  else if b.headers.length ≠ b.strings.length then .error .panicked
  else .ok
    (u32le b.strings.length ++
      u32le ((b.strings.map (fun s => (utf8ByteLen s + 1) % 2 ^ 32)).sum % 2 ^ 32) ++
      u64le b.hash_version ++
      (b.hashes.map u64le).flatten ++
      (b.headers.map serializedNameHeaderWrite).flatten ++
      (b.strings.map (fun s => utf8Encode s ++ [0])).flatten)

/-- String-section loop of `NamesBatch::read`: one string per header, with a
running byte count checked against the declared total.  The wide branch
keeps the `vec![0u16; len - 1]` buffer that the units are then pushed onto,
so the decoded buffer carries `len - 1` leading zero units.  The guard uses
`saturating_add`; the subsequent unchecked `u32` addition is modelled as a
panic when it would overflow. -/
def namesBatchReadStrings : List SerializedNameHeader → Nat → Nat → List Nat →
    Except Err (List (List Nat) × List Nat)
  | [], processed, expected, input =>
    if processed ≠ expected then
      .error (.msg "NamesBatch processed string bytes differ from header")
    else .ok ([], input)
  | h :: hs, processed, expected, input =>
    if h.len = 0 then .error (.msg "got unexpected zero-length NUL-terminated string")
    else if min (processed + h.n_bytes) (2 ^ 32 - 1) > expected then
      .error (.msg "more string bytes than expected from the NamesBatch header")
    else if h.is_utf16 then do
      let (unitBytes, r1) ← readExact ((h.len - 1) * 2) input
      let (nul, r2) ← readU16 r1
      if nul ≠ 0 then .error (.msg "expected NUL u16")
      else do
        let s ← utf16Decode (List.replicate (h.len - 1) 0 ++ pairUnitsLE unitBytes)
        if processed + h.n_bytes ≥ 2 ^ 32 then .error .panicked
        else do
          let (tail, r3) ← namesBatchReadStrings hs (processed + h.n_bytes) expected r2
          .ok (s :: tail, r3)
    else do
      let (buf, r1) ← readExact (h.len - 1) input
      let (nul, r2) ← readU8 r1
      if nul ≠ 0 then .error (.msg "expected NUL byte")
      else do
        let s ← utf8Decode buf
        if processed + h.n_bytes ≥ 2 ^ 32 then .error .panicked
        else do
          let (tail, r3) ← namesBatchReadStrings hs (processed + h.n_bytes) expected r2
          .ok (s :: tail, r3)

/-- Deserialization of `NamesBatch::read`. -/
def namesBatchRead (input : List Nat) : Except Err (NamesBatch × List Nat) := do
  let (count, r1) ← readU32 input
  let (expected, r2) ← readU32 r1
  let (hash_version, r3) ← readU64 r2
  let (hashes, r4) ← readArrayP count readU64 r3
  let (headers, r5) ← readArrayP count serializedNameHeaderRead r4
  let (strings, r6) ← namesBatchReadStrings headers 0 expected r5
  .ok ({ hash_version := hash_version, hashes := hashes, headers := headers,
         strings := strings }, r6)

/-- Round trip of a names batch: encode, then decode the produced bytes. -/
def namesBatchRoundTrip (b : NamesBatch) : Except Err (NamesBatch × List Nat) :=
  (namesBatchWrite b).bind namesBatchRead

/-- Version GUID constant from `asset_registry_version.rs`. -/
def versionGuid : List Nat :=
  [0xE7, 0x9E, 0x7F, 0x71, 0x3A, 0x49, 0xB0, 0xE9,
   0x32, 0x91, 0xB3, 0x88, 0x07, 0x81, 0x38, 0x1B]

/-- Version ordinals of `AssetRegistryVersion`. -/
inductive AssetRegistryVersion where
  | PreVersioning
  | HardSoftDependencies
  | AddAssetRegistryState
  | ChangedAssetData
  | RemovedMD5Hash
  | AddedHardManage
  | AddedCookedMD5Hash
  | AddedDependencyFlags
  | FixedTags
  | WorkspaceDomain
  | PackageImportedClasses
  | PackageFileSummaryVersionChange
  | ObjectResourceOptionalVersionChange
  | AddedChunkHashes
  | ClassPaths
  | RemoveAssetPathFNames
  | AddedHeader
  | AssetPackageDataHasExtension
deriving DecidableEq

/-- Numeric value of a version ordinal (`#[repr(u32)]`). -/
def AssetRegistryVersion.toNum : AssetRegistryVersion → Nat
  | .PreVersioning => 0
  | .HardSoftDependencies => 1
  | .AddAssetRegistryState => 2
  | .ChangedAssetData => 3
  | .RemovedMD5Hash => 4
  | .AddedHardManage => 5
  | .AddedCookedMD5Hash => 6
  | .AddedDependencyFlags => 7
  | .FixedTags => 8
  | .WorkspaceDomain => 9
  | .PackageImportedClasses => 10
  | .PackageFileSummaryVersionChange => 11
  | .ObjectResourceOptionalVersionChange => 12
  | .AddedChunkHashes => 13
  | .ClassPaths => 14
  | .RemoveAssetPathFNames => 15
  | .AddedHeader => 16
  | .AssetPackageDataHasExtension => 17

/-- Conversion from a numeric value back to an ordinal, modelling
`AssetRegistryVersion::try_from`. -/
def AssetRegistryVersion.ofNum? : Nat → Option AssetRegistryVersion
  | 0 => some .PreVersioning
  | 1 => some .HardSoftDependencies
  | 2 => some .AddAssetRegistryState
  | 3 => some .ChangedAssetData
  | 4 => some .RemovedMD5Hash
  | 5 => some .AddedHardManage
  | 6 => some .AddedCookedMD5Hash
  | 7 => some .AddedDependencyFlags
  | 8 => some .FixedTags
  | 9 => some .WorkspaceDomain
  | 10 => some .PackageImportedClasses
  | 11 => some .PackageFileSummaryVersionChange
  | 12 => some .ObjectResourceOptionalVersionChange
  | 13 => some .AddedChunkHashes
  | 14 => some .ClassPaths
  | 15 => some .RemoveAssetPathFNames
  | 16 => some .AddedHeader
  | 17 => some .AssetPackageDataHasExtension
  | _ => none

/-- Serialization of `AssetRegistryVersion::write`: the GUID constant and
the ordinal as a little-endian `u32`. -/
def assetRegistryVersionWrite (v : AssetRegistryVersion) : List Nat :=
  versionGuid ++ u32le v.toNum

/-- Deserialization of `AssetRegistryVersion::read`. -/
def assetRegistryVersionRead (input : List Nat) :
    Except Err (AssetRegistryVersion × List Nat) := do
  let (guid, r0) ← readExact 16 input
  if guid ≠ versionGuid then .error (.msg "invalid guid")
  else do
    let (n, r1) ← readU32 r0
    match AssetRegistryVersion.ofNum? n with
    | some v => .ok (v, r1)
    | none => .error (.msg "unexpected AssetRegistryVersion")

/-- Versioned container header from `asset_registry_header.rs`. -/
structure AssetRegistryHeader where
  version : AssetRegistryVersion
deriving DecidableEq

/-- Serialization of `AssetRegistryHeader::write`: the GUID constant,
followed by the version record which itself starts with the same GUID
constant again. -/
def assetRegistryHeaderWrite (h : AssetRegistryHeader) : List Nat :=
  versionGuid ++ assetRegistryVersionWrite h.version

/-- Deserialization of `AssetRegistryHeader::read`. -/
def assetRegistryHeaderRead (input : List Nat) :
    Except Err (AssetRegistryHeader × List Nat) := do
  let (guid, r0) ← readExact 16 input
  if guid ≠ versionGuid then .error (.msg "invalid guid")
  else do
    let (version, r1) ← assetRegistryVersionRead r0
    .ok ({ version := version }, r1)

/-- Store-data framing constant `START_MAGIC`. -/
def START_MAGIC : Nat := 0x12345679

/-- Store-data framing constant `END_MAGIC`. -/
def END_MAGIC : Nat := 0x87654321

/-- Tag value store from `store_data.rs`. -/
structure StoreData where
  text_data : List FText
  numberless_names : List FName
  names : List FName
  numberless_export_paths : List FAssetRegistryExportPath
  ansi_strings : List (List Nat)
  wide_strings : List (List Nat)
  numberless_pairs : List FNumberedPair
  pairs : List FNumberedPair
deriving DecidableEq

/-- Offset table written for a string pool: a running byte offset that
advances by `s.len() + 1` per string, where `s.len()` is the UTF-8 byte
length for the ANSI pool and the wide pool alike. -/
def stringOffsetBytes : Nat → List (List Nat) → List Nat
  | _, [] => []
  | off, s :: ss => u32le off ++ stringOffsetBytes (off + (utf8ByteLen s + 1)) ss

/-- Serialization of `StoreData::write`.  Wide strings are emitted as
little-endian UTF-16 units followed by a single `u8` NUL byte, while their
declared byte totals and offsets count `utf8_len + 1` per string. -/
def storeDataWrite (d : StoreData) : List Nat :=
  u32le START_MAGIC ++
  u32le d.numberless_names.length ++
  u32le d.names.length ++
  u32le d.numberless_export_paths.length ++
  u32le d.text_data.length ++
  u32le d.ansi_strings.length ++
  u32le d.wide_strings.length ++
  u32le ((d.ansi_strings.map (fun s => utf8ByteLen s + 1)).sum % 2 ^ 32) ++
  u32le ((d.wide_strings.map (fun s => utf8ByteLen s + 1)).sum % 2 ^ 32) ++
  u32le d.numberless_pairs.length ++
  u32le d.pairs.length ++
  (d.text_data.map ftextWrite).flatten ++
  (d.numberless_names.map fnameWrite).flatten ++
  (d.names.map fnameWrite).flatten ++
  (d.numberless_export_paths.map fexportPathWrite).flatten ++
  stringOffsetBytes 0 d.ansi_strings ++
  stringOffsetBytes 0 d.wide_strings ++
  (d.ansi_strings.map (fun s => utf8Encode s ++ [0])).flatten ++
  (d.wide_strings.map (fun s => ((utf16Encode s).map u16le).flatten ++ [0])).flatten ++
  (d.numberless_pairs.map fnumberedPairWrite).flatten ++
  (d.pairs.map fnumberedPairWrite).flatten ++
  u32le END_MAGIC

/-- Extraction of one ANSI pool string from the half-open offset range
`[o, next)`, with the validation performed by `StoreData::read`: strict
offset ordering, both offsets within the declared total, a nonzero derived
length bounded by `isize::MAX as u32`, and a NUL terminator that is dropped
from the returned text. -/
def ansiPairRead (o next total : Nat) (input : List Nat) :
    Except Err (List Nat × List Nat) :=
  if o ≥ next then .error (.msg "offset ge next offset, ANSI string offset is bad")
  else if o > total ∨ next > total then
    .error (.msg "offset exceeds claimed number of ANSI string bytes")
  else
    let len := next - o
    if len = 0 then .error (.msg "ANSI string len is 0")
    else if len > 0xFFFFFFFF then .error (.msg "ANSI string len larger than isize MAX")
    else do
      let (buf, r1) ← readExact (len - 1) input
      let (nul, r2) ← readU8 r1
      if nul ≠ 0 then .error (.msg "ANSI string is not NUL-terminated")
      else do
        let s ← utf8Decode buf
        .ok (s, r2)

/-- Extraction of one wide pool string; unlike the ANSI path the offsets are
not compared against the declared total, and the buffer (with the NUL byte
dropped) is decoded via `String::from_utf16le`. -/
def widePairRead (o next : Nat) (input : List Nat) :
    Except Err (List Nat × List Nat) :=
  if o ≥ next then .error (.msg "offset ge next offset, wide string offset is bad")
  else
    let len := next - o
    if len = 0 then .error (.msg "wide string len is 0")
    else if len > 0xFFFFFFFF then .error (.msg "wide string len larger than isize MAX")
    else do
      let (buf, r1) ← readExact (len - 1) input
      let (nul, r2) ← readU8 r1
      if nul ≠ 0 then .error (.msg "wide string is not NUL-terminated")
      else do
        let s ← utf16leDecodeBytes buf
        .ok (s, r2)

/-- ANSI pool decoding loop of `StoreData::read`: consecutive offsets are
paired, the declared total byte count serving as the final sentinel. -/
def readAnsiPool (offsets : List Nat) (total : Nat) (input : List Nat) :
    Except Err (List (List Nat) × List Nat) :=
  match offsets with
  | [] => .ok ([], input)
  | [o] => do
    let (s, r) ← ansiPairRead o total total input
    .ok ([s], r)
  | o :: o2 :: os => do
    let (s, r) ← ansiPairRead o o2 total input
    let (tail, r2) ← readAnsiPool (o2 :: os) total r
    .ok (s :: tail, r2)

/-- Wide pool decoding loop of `StoreData::read`. -/
def readWidePool (offsets : List Nat) (total : Nat) (input : List Nat) :
    Except Err (List (List Nat) × List Nat) :=
  match offsets with
  | [] => .ok ([], input)
  | [o] => do
    let (s, r) ← widePairRead o total input
    .ok ([s], r)
  | o :: o2 :: os => do
    let (s, r) ← widePairRead o o2 input
    let (tail, r2) ← readWidePool (o2 :: os) total r
    .ok (s :: tail, r2)

/-- Deserialization of `StoreData::read`. -/
def storeDataRead (input : List Nat) : Except Err (StoreData × List Nat) := do
  let (startMagic, r0) ← readU32 input
  if startMagic ≠ START_MAGIC then .error (.msg "store data start magic mismatch")
  else do
    let (numberless_names_count, r1) ← readU32 r0
    let (names_count, r2) ← readU32 r1
    let (numberless_export_paths_count, r3) ← readU32 r2
    let (text_data_count, r4) ← readU32 r3
    let (ansi_string_offsets_count, r5) ← readU32 r4
    let (wide_string_offsets_count, r6) ← readU32 r5
    let (ansi_string_bytes, r7) ← readU32 r6
    let (wide_string_bytes, r8) ← readU32 r7
    let (numberless_pairs_count, r9) ← readU32 r8
    let (pairs_count, r10) ← readU32 r9
    let (text_data, r11) ← readArrayP text_data_count ftextRead r10
    let (numberless_names, r12) ← readArrayP numberless_names_count fnameRead r11
    let (names, r13) ← readArrayP names_count fnameRead r12
    let (numberless_export_paths, r14) ←
      readArrayP numberless_export_paths_count fexportPathRead r13
    let (ansi_string_offsets, r15) ← readArrayP ansi_string_offsets_count readU32 r14
    let (wide_string_offsets, r16) ← readArrayP wide_string_offsets_count readU32 r15
    let (ansi_strings, r17) ← readAnsiPool ansi_string_offsets ansi_string_bytes r16
    let (wide_strings, r18) ← readWidePool wide_string_offsets wide_string_bytes r17
    let (numberless_pairs, r19) ← readArrayP numberless_pairs_count fnumberedPairRead r18
    let (pairs, r20) ← readArrayP pairs_count fnumberedPairRead r19
    let (endMagic, r21) ← readU32 r20
    if endMagic ≠ END_MAGIC then .error (.msg "store data end magic mismatch")
    else
      .ok ({ text_data := text_data, numberless_names := numberless_names,
             names := names, numberless_export_paths := numberless_export_paths,
             ansi_strings := ansi_strings, wide_strings := wide_strings,
             numberless_pairs := numberless_pairs, pairs := pairs }, r21)

/-- Round trip of a store-data record: encode, then decode the bytes. -/
def storeDataRoundTrip (d : StoreData) : Except Err (StoreData × List Nat) :=
  storeDataRead (storeDataWrite d)

/-! Helper lemmas about the byte-level readers. -/

theorem bindOk (a : α) (f : α → Except Err β) :
    (bind (Except.ok a) f : Except Err β) = f a := rfl

theorem bindErr (e : Err) (f : α → Except Err β) :
    (bind (Except.error e) f : Except Err β) = .error e := rfl

theorem readU8_cons (b : Nat) (rest : List Nat) :
    readU8 (b :: rest) = .ok (b % 256, rest) := rfl

theorem readU32_u32le (n : Nat) (rest : List Nat) (h : n < 2 ^ 32) :
    readU32 (u32le n ++ rest) = .ok (n, rest) := by
  simp only [u32le, readU32, readU16, readU8, List.cons_append, List.nil_append,
    bind, Except.bind, Nat.mod_mod_of_dvd, Nat.mod_self]
  refine congrArg Except.ok (Prod.ext ?_ rfl)
  simp only
  omega

theorem readU32_rest (input r : List Nat) (v : Nat)
    (h : readU32 input = .ok (v, r)) : r = input.drop 4 := by
  match input with
  | [] => simp [readU32, readU16, readU8, bind, Except.bind] at h
  | [a] => simp [readU32, readU16, readU8, bind, Except.bind] at h
  | [a, b] => simp [readU32, readU16, readU8, bind, Except.bind] at h
  | [a, b, c] => simp [readU32, readU16, readU8, bind, Except.bind] at h
  | a :: b :: c :: d :: rest =>
    simp only [readU32, readU16, readU8, bind, Except.bind, Except.ok.injEq,
      Prod.mk.injEq] at h
    simp [← h.2]

theorem readExact_append (l rest : List Nat) (hb : ∀ x ∈ l, x < 256) :
    readExact l.length (l ++ rest) = .ok (l, rest) := by
  simp only [readExact, List.length_append, List.take_left, List.drop_left]
  rw [if_pos (Nat.le_add_right _ _)]
  congr 1
  refine Prod.ext ?_ rfl
  simp only
  exact List.map_congr_left (fun x hx => Nat.mod_eq_of_lt (hb x hx)) |>.trans
    (List.map_id l)

theorem readExact_ok_length (n : Nat) (input buf r : List Nat)
    (h : readExact n input = .ok (buf, r)) : buf.length = n := by
  simp only [readExact] at h
  split at h
  · cases h
    simp_all [List.length_take, Nat.min_eq_left]
  · cases h

theorem readI32_i32le (n : Int) (rest : List Nat) (hlo : -(2 ^ 31) ≤ n)
    (hhi : n < 2 ^ 31) : readI32 (i32le n ++ rest) = .ok (n, rest) := by
  have h32 : ((n % (2 ^ 32 : Int)).toNat) < 2 ^ 32 := by omega
  simp only [readI32, i32le, bind, Except.bind, readU32_u32le _ rest h32]
  refine congrArg Except.ok (Prod.ext ?_ rfl)
  simp only
  split <;> omega

/-! Helper lemmas about the text codecs. -/

theorem utf8Encode_ascii (s : List Nat) (h : isAsciiStr s = true) :
    utf8Encode s = s := by
  induction s with
  | nil => rfl
  | cons c cs ih =>
    simp only [isAsciiStr, List.all_cons, Bool.and_eq_true, decide_eq_true_eq] at h
    simp only [utf8Encode, List.map_cons, List.flatten_cons] at *
    rw [utf8EncodeChar, if_pos h.1, ih h.2]
    rfl

theorem utf8Decode_cons_ascii (c : Nat) (cs : List Nat) (h : c < 128) :
    utf8Decode (c :: cs) = (utf8Decode cs).map (c :: ·) := by
  simp only [utf8Decode, List.length_cons, utf8DecodeFuel, utf8DecodeHead,
    if_pos h, bind, Except.bind]
  cases utf8DecodeFuel cs.length cs <;> rfl

theorem utf8Decode_ascii (s : List Nat) (h : ∀ c ∈ s, c < 128) :
    utf8Decode s = .ok s := by
  induction s with
  | nil => rfl
  | cons c cs ih =>
    rw [utf8Decode_cons_ascii c cs (h c (List.mem_cons_self c cs))]
    rw [ih (fun x hx => h x (List.mem_cons_of_mem c hx))]
    rfl

theorem flatten_u16le_length (us : List Nat) :
    ((us.map u16le).flatten).length = 2 * us.length := by
  induction us with
  | nil => rfl
  | cons u tl ih =>
    simp only [List.map_cons, List.flatten_cons, List.length_append, ih,
      u16le, List.length_cons, List.length_nil]
    omega

theorem flatten_u16le_bytes (us : List Nat) :
    ∀ x ∈ (us.map u16le).flatten, x < 256 := by
  induction us with
  | nil => simp
  | cons u tl ih =>
    simp only [List.map_cons, List.flatten_cons, List.mem_append]
    rintro x (hx | hx)
    · simp only [u16le, List.mem_cons, List.not_mem_nil, or_false] at hx
      rcases hx with h | h <;> omega
    · exact ih x hx

theorem pairUnitsLE_flatten (us : List Nat) (h : ∀ u ∈ us, u < 65536) :
    pairUnitsLE ((us.map u16le).flatten) = us := by
  induction us with
  | nil => rfl
  | cons u tl ih =>
    have hu : u < 65536 := h u (List.mem_cons_self u tl)
    have hshape : u16le u ++ (List.map u16le tl).flatten =
        u % 256 :: u / 256 % 256 :: (List.map u16le tl).flatten := rfl
    simp only [List.map_cons, List.flatten_cons, hshape, pairUnitsLE]
    have hnil : ([] : List Nat).append (List.map u16le tl).flatten =
        (List.map u16le tl).flatten := rfl
    rw [hnil, ih (fun x hx => h x (List.mem_cons_of_mem u hx))]
    congr 1
    omega

/-! Helper lemmas about `fstringRead` on well-formed inputs. -/

theorem fstringRead_pos (bs rest : List Nat) (h1 : bs.length + 1 < 2 ^ 31)
    (hb : ∀ x ∈ bs, x < 256) :
    fstringRead (i32le ((bs.length : Int) + 1) ++ (bs ++ 0 :: rest)) =
      (utf8Decode bs).bind fun s => .ok (⟨s⟩, rest) := by
  have hI := readI32_i32le ((bs.length : Int) + 1) (bs ++ 0 :: rest)
    (by omega) (by exact_mod_cast h1)
  have hpos : (0 : Int) < (bs.length : Int) + 1 := by omega
  have htn : ((bs.length : Int) + 1).toNat - 1 = bs.length := by omega
  simp only [fstringRead]
  rw [hI, bindOk]
  rw [if_pos hpos, htn, readExact_append bs (0 :: rest) hb, bindOk, readU8_cons,
    bindOk]
  simp only [Nat.zero_mod, ne_eq, not_true_eq_false, if_false]
  cases hu : utf8Decode bs <;> simp [hu, bindOk, bindErr, Except.bind]

theorem fstringRead_neg (us rest : List Nat) (h1 : 2 * us.length + 2 < 2 ^ 31)
    (hu : ∀ u ∈ us, u < 65536) :
    fstringRead (i32le (-((2 * us.length : Nat) + 1 : Int)) ++
        ((us.map u16le).flatten ++ 0 :: rest)) =
      (utf16Decode us).bind fun s => .ok (⟨s⟩, rest) := by
  have hI := readI32_i32le (-((2 * us.length : Nat) + 1 : Int))
    ((us.map u16le).flatten ++ 0 :: rest) (by omega) (by omega)
  have hnpos : ¬ ((0 : Int) < -((2 * us.length : Nat) + 1 : Int)) := by omega
  have hnz : ¬ ((-((2 * us.length : Nat) + 1 : Int)) = 0) := by omega
  have hlen : i32NegToUsize (-((2 * us.length : Nat) + 1 : Int)) =
      2 * us.length + 1 := by
    simp only [i32NegToUsize, wrapI32, neg_neg]
    omega
  have hpar : ¬ ((2 * us.length + 1 - 1) % 2 ≠ 0) := by omega
  have hflat : ((us.map u16le).flatten).length = 2 * us.length :=
    flatten_u16le_length us
  have hex : readExact (2 * us.length + 1 - 1)
      ((us.map u16le).flatten ++ 0 :: rest) =
      .ok ((us.map u16le).flatten, 0 :: rest) := by
    have h2 := readExact_append ((us.map u16le).flatten) (0 :: rest)
      (flatten_u16le_bytes us)
    rw [hflat] at h2
    have h3 : 2 * us.length + 1 - 1 = 2 * us.length := by omega
    rw [h3, h2]
  simp only [fstringRead]
  rw [hI, bindOk]
  rw [if_neg hnpos, if_neg hnz, hlen]
  rw [if_neg hpar, hex, bindOk, readU8_cons, bindOk]
  simp only [Nat.zero_mod, ne_eq, not_true_eq_false, if_false,
    pairUnitsLE_flatten us hu]
  cases hu16 : utf16Decode us <;> simp [hu16, bindOk, bindErr, Except.bind]

/-! Helper lemmas about the store-data string pools. -/

theorem ansiPairRead_over (o next total : Nat) (input : List Nat)
    (h : total < o) : ∃ e, ansiPairRead o next total input = .error e := by
  unfold ansiPairRead
  by_cases hge : o ≥ next
  · exact ⟨_, if_pos hge⟩
  · rw [if_neg hge, if_pos (Or.inl h)]
    exact ⟨_, rfl⟩

theorem widePairRead_first_ge (o next : Nat) (input : List Nat)
    (h : next ≤ o) : widePairRead o next input =
      .error (.msg "offset ge next offset, wide string offset is bad") := by
  unfold widePairRead
  exact if_pos h

theorem readAnsiPool_offset_over (offsets : List Nat) (total : Nat)
    (input : List Nat) (o : Nat) (ho : o ∈ offsets) (hover : total < o) :
    (readAnsiPool offsets total input).isOk = false := by
  induction offsets generalizing input o with
  | nil => cases ho
  | cons o1 os ih =>
    cases os with
    | nil =>
      have heq : o = o1 := by simpa using ho
      subst heq
      obtain ⟨e, he⟩ := ansiPairRead_over o total total input hover
      simp [readAnsiPool, he, bindErr, Except.isOk, Except.toBool]
    | cons o2 os2 =>
      rcases List.mem_cons.mp ho with heq | hmem
      · subst heq
        obtain ⟨e, he⟩ := ansiPairRead_over o o2 total input hover
        simp [readAnsiPool, he, bindErr, Except.isOk, Except.toBool]
      · cases hp : ansiPairRead o1 o2 total input with
        | error e => simp [readAnsiPool, hp, bindErr, Except.isOk, Except.toBool]
        | ok sr =>
          obtain ⟨s1, r1⟩ := sr
          have hrec := ih r1 o hmem hover
          cases hr : readAnsiPool (o2 :: os2) total r1 with
          | error e2 =>
            simp [readAnsiPool, hp, hr, bindOk, bindErr, Except.isOk,
              Except.toBool]
          | ok out =>
            rw [hr] at hrec
            simp [Except.isOk, Except.toBool] at hrec

theorem readWidePool_chain_lt (offsets : List Nat) (total : Nat)
    (input : List Nat) (out : List (List Nat) × List Nat)
    (h : readWidePool offsets total input = .ok out) :
    ∀ o ∈ offsets, o < total := by
  induction offsets generalizing input out with
  | nil => intro o ho; cases ho
  | cons o1 os ih =>
    cases os with
    | nil =>
      intro o ho
      have heq : o = o1 := by simpa using ho
      subst heq
      by_cases hlt : o < total
      · exact hlt
      · rw [show readWidePool [o] total input = (do
          let (s, r) ← widePairRead o total input
          .ok ([s], r)) from rfl] at h
        rw [widePairRead_first_ge o total input (by omega), bindErr] at h
        cases h
    | cons o2 os2 =>
      intro o ho
      rw [show readWidePool (o1 :: o2 :: os2) total input = (do
        let (s, r) ← widePairRead o1 o2 input
        let (tail, r2) ← readWidePool (o2 :: os2) total r
        .ok (s :: tail, r2)) from rfl] at h
      cases hp : widePairRead o1 o2 input with
      | error e => rw [hp, bindErr] at h; cases h
      | ok sr =>
        obtain ⟨s1, r1⟩ := sr
        rw [hp, bindOk] at h
        dsimp only at h
        cases hr : readWidePool (o2 :: os2) total r1 with
        | error e2 => rw [hr, bindErr] at h; cases h
        | ok out2 =>
          have htail := ih r1 out2 hr
          have ho2 : o2 < total := htail o2 (List.mem_cons_self o2 os2)
          have ho1 : o1 < o2 := by
            by_contra hge
            rw [widePairRead_first_ge o1 o2 input (by omega)] at hp
            cases hp
          rcases List.mem_cons.mp ho with heq | hmem
          · omega
          · exact htail o hmem

theorem readWidePool_offset_over (offsets : List Nat) (total : Nat)
    (input : List Nat) (o : Nat) (ho : o ∈ offsets) (hover : total < o) :
    (readWidePool offsets total input).isOk = false := by
  cases hr : readWidePool offsets total input with
  | error e => simp [Except.isOk, Except.toBool]
  | ok out =>
    have := readWidePool_chain_lt offsets total input out hr o ho
    omega

theorem widePairRead_even_fails (o next : Nat) (input : List Nat)
    (h1 : o < next) (h2 : (next - o) % 2 = 0) :
    (widePairRead o next input).isOk = false := by
  unfold widePairRead
  rw [if_neg (show ¬ o ≥ next by omega)]
  dsimp only
  rw [if_neg (show ¬ (next - o = 0) by omega)]
  by_cases hbig : next - o > 0xFFFFFFFF
  · rw [if_pos hbig]; rfl
  · rw [if_neg hbig]
    cases he : readExact (next - o - 1) input with
    | error e1 => simp [he, bindErr, Except.isOk, Except.toBool]
    | ok br =>
      obtain ⟨buf, r1⟩ := br
      have hblen : buf.length = next - o - 1 := readExact_ok_length _ _ _ _ he
      cases hn : readU8 r1 with
      | error e1 => simp [he, hn, bindOk, bindErr, Except.isOk, Except.toBool]
      | ok nr =>
        obtain ⟨nul, r2⟩ := nr
        by_cases hz : nul = 0
        · have hodd1 : buf.length % 2 = 1 := by omega
          simp [he, hn, bindOk, if_pos hz, utf16leDecodeBytes, hodd1, bindErr,
            Except.isOk, Except.toBool]
        · simp [he, hn, bindOk, if_neg hz, Except.isOk, Except.toBool]

theorem readWidePool_0_5_11_fails (input : List Nat) :
    (readWidePool [0, 5] 11 input).isOk = false := by
  rw [show readWidePool [0, 5] 11 input = (do
    let (s, r) ← widePairRead 0 5 input
    let (tail, r2) ← readWidePool [5] 11 r
    .ok (s :: tail, r2)) from rfl]
  cases hp : widePairRead 0 5 input with
  | error e1 => simp [hp, bindErr, Except.isOk, Except.toBool]
  | ok sr =>
    obtain ⟨s1, r1⟩ := sr
    rw [bindOk]
    dsimp only
    have h2 := widePairRead_even_fails 5 11 r1 (by omega) (by omega)
    cases hq : widePairRead 5 11 r1 with
    | error e1 => simp [readWidePool, hq, bindErr, Except.isOk, Except.toBool]
    | ok sr2 =>
      rw [hq] at h2
      simp [Except.isOk, Except.toBool] at h2

/-! Helper lemmas about the names-batch string loop. -/

theorem readStrings_ok_sum (hs : List SerializedNameHeader) (p e : Nat)
    (input : List Nat) (out : List (List Nat) × List Nat)
    (h : namesBatchReadStrings hs p e input = .ok out) :
    p + (hs.map SerializedNameHeader.n_bytes).sum = e := by
  induction hs generalizing p input out with
  | nil =>
    rw [show namesBatchReadStrings [] p e input = (if p ≠ e then
      .error (.msg "NamesBatch processed string bytes differ from header")
      else .ok ([], input)) from rfl] at h
    by_cases hp : p ≠ e
    · rw [if_pos hp] at h; cases h
    · simp only [ne_eq, Decidable.not_not] at hp
      simpa using hp
  | cons hd tl ih =>
    simp only [namesBatchReadStrings] at h
    split at h
    · cases h
    · split at h
      · cases h
      · split at h
        · cases he : readExact ((hd.len - 1) * 2) input with
          | error e1 => rw [he, bindErr] at h; cases h
          | ok pr =>
            obtain ⟨unitBytes, r1⟩ := pr
            rw [he, bindOk] at h
            dsimp only at h
            cases hn : readU16 r1 with
            | error e1 => rw [hn, bindErr] at h; cases h
            | ok nr =>
              obtain ⟨nul, r2⟩ := nr
              rw [hn, bindOk] at h
              dsimp only at h
              split at h
              · cases h
              · cases hu : utf16Decode
                    (List.replicate (hd.len - 1) 0 ++ pairUnitsLE unitBytes) with
                | error e1 => rw [hu, bindErr] at h; cases h
                | ok s =>
                  rw [hu, bindOk] at h
                  split at h
                  · cases h
                  · cases hr : namesBatchReadStrings tl (p + hd.n_bytes) e r2 with
                    | error e1 => rw [hr, bindErr] at h; cases h
                    | ok out2 =>
                      have hsum := ih (p + hd.n_bytes) r2 out2 hr
                      simp only [List.map_cons, List.sum_cons]
                      omega
        · cases he : readExact (hd.len - 1) input with
          | error e1 => rw [he, bindErr] at h; cases h
          | ok pr =>
            obtain ⟨buf, r1⟩ := pr
            rw [he, bindOk] at h
            dsimp only at h
            cases hn : readU8 r1 with
            | error e1 => rw [hn, bindErr] at h; cases h
            | ok nr =>
              obtain ⟨nul, r2⟩ := nr
              rw [hn, bindOk] at h
              dsimp only at h
              split at h
              · cases h
              · cases hu : utf8Decode buf with
                | error e1 => rw [hu, bindErr] at h; cases h
                | ok s =>
                  rw [hu, bindOk] at h
                  split at h
                  · cases h
                  · cases hr : namesBatchReadStrings tl (p + hd.n_bytes) e r2 with
                    | error e1 => rw [hr, bindErr] at h; cases h
                    | ok out2 =>
                      have hsum := ih (p + hd.n_bytes) r2 out2 hr
                      simp only [List.map_cons, List.sum_cons]
                      omega

theorem namesBatchRead_ok_sum (input : List Nat) (b : NamesBatch)
    (rest : List Nat) (h : namesBatchRead input = .ok (b, rest)) :
    (readU32 (input.drop 4)).map Prod.fst =
      .ok ((b.headers.map SerializedNameHeader.n_bytes).sum) := by
  simp only [namesBatchRead] at h
  cases h1 : readU32 input with
  | error e1 => rw [h1, bindErr] at h; cases h
  | ok cr =>
    obtain ⟨count, r1⟩ := cr
    rw [h1, bindOk] at h
    dsimp only at h
    cases h2 : readU32 r1 with
    | error e1 => rw [h2, bindErr] at h; cases h
    | ok er =>
      obtain ⟨expected, r2⟩ := er
      rw [h2, bindOk] at h
      dsimp only at h
      cases h3 : readU64 r2 with
      | error e1 => rw [h3, bindErr] at h; cases h
      | ok hvr =>
        obtain ⟨hv, r3⟩ := hvr
        rw [h3, bindOk] at h
        dsimp only at h
        cases h4 : readArrayP count readU64 r3 with
        | error e1 => rw [h4, bindErr] at h; cases h
        | ok hr4 =>
          obtain ⟨hashes, r4⟩ := hr4
          rw [h4, bindOk] at h
          dsimp only at h
          cases h5 : readArrayP count serializedNameHeaderRead r4 with
          | error e1 => rw [h5, bindErr] at h; cases h
          | ok hr5 =>
            obtain ⟨headers, r5⟩ := hr5
            rw [h5, bindOk] at h
            dsimp only at h
            cases h6 : namesBatchReadStrings headers 0 expected r5 with
            | error e1 => rw [h6, bindErr] at h; cases h
            | ok sr6 =>
              obtain ⟨strings, r6⟩ := sr6
              rw [h6, bindOk] at h
              dsimp only at h
              have hdrop := readU32_rest input r1 count h1
              have hsum := readStrings_ok_sum headers 0 expected r5
                (strings, r6) h6
              cases h
              rw [← hdrop, h2]
              simp only [Except.map]
              congr 1
              omega

/-! Helper lemmas about the version enumeration. -/

theorem versionToNum_lt (v : AssetRegistryVersion) : v.toNum < 2 ^ 32 := by
  cases v <;> decide

theorem versionOfNum_toNum (v : AssetRegistryVersion) :
    AssetRegistryVersion.ofNum? v.toNum = some v := by
  cases v <;> rfl

theorem fstringRead_pos_badterm (bs : List Nat) (c : Nat) (rest : List Nat)
    (h1 : bs.length + 1 < 2 ^ 31) (hb : ∀ x ∈ bs, x < 256) (hc : c < 256)
    (hnz : c ≠ 0) :
    fstringRead (i32le ((bs.length : Int) + 1) ++ (bs ++ c :: rest)) =
      .error (.msg "FString not NUL-terminated") := by
  have hI := readI32_i32le ((bs.length : Int) + 1) (bs ++ c :: rest)
    (by omega) (by exact_mod_cast h1)
  have hpos : (0 : Int) < (bs.length : Int) + 1 := by omega
  have htn : ((bs.length : Int) + 1).toNat - 1 = bs.length := by omega
  have hcm : c % 256 = c := Nat.mod_eq_of_lt hc
  simp only [fstringRead]
  rw [hI, bindOk]
  rw [if_pos hpos, htn, readExact_append bs (c :: rest) hb, bindOk, readU8_cons,
    bindOk]
  rw [hcm, if_pos hnz]

/-! Statements and proofs for the individual specification claims. -/

/-- Claim C1 (code bug): the round-trip property `decode(encode(x)) == x`
fails on the particular instances the claim singles out.  A `NamesBatch`
whose single entry carries a UTF-16 header (here the one-character string
`"é"` with header `{is_utf16: true, len: 2}`) does not survive the round
trip: `write` always emits UTF-8 bytes and counts `utf8_len + 1` per string,
so decode rejects the byte accounting.  A `StoreData` with a non-empty
`wide_strings` array fails as well: `write` emits UTF-16 units closed by a
single NUL byte while declaring `utf8_len + 1` bytes, and decode rejects the
derived odd-length payload as invalid UTF-16. -/
theorem roundTrip_fails_on_utf16_entries :
    namesBatchRoundTrip ⟨0, [0], [⟨true, 2⟩], [[0xE9]]⟩ =
      .error (.msg "more string bytes than expected from the NamesBatch header") ∧
    storeDataRoundTrip ⟨[], [], [], [], [], [[0x61]], [], []⟩ =
      .error .utf16Err := by
  exact ⟨by decide, by decide⟩

/-- Claim C2 counterexample: the encoder does not produce the byte sequence
the claim displays.  For the single entry `"a"` the second `u32` field (the
total string bytes) is `2` (`"a".len() + 1`), not `3`. -/
theorem namesBatch_example_bytes_counterexample :
    namesBatchWrite ⟨0, [0xDEADBEEF], [⟨false, 2⟩], [[0x61]]⟩ ≠
      .ok [0x01, 0, 0, 0, 0x03, 0, 0, 0, 0, 0, 0, 0, 0, 0, 0, 0,
        0xEF, 0xBE, 0xAD, 0xDE, 0, 0, 0, 0, 0x00, 0x02, 0x61, 0x00] := by
  decide

/-- Claim C2 as amended: encoding the NamesBatch with hash algorithm id 0,
one hash `0xDEADBEEF`, one header `{is_wide: false, unit_count: 2}` and one
string `"a"` produces exactly
`[01 00 00 00][02 00 00 00][00 x 8][EF BE AD DE 00 00 00 00][00 02][61 00]`;
the second `u32` field (total string bytes) equals 2. -/
theorem namesBatch_example_bytes :
    namesBatchWrite ⟨0, [0xDEADBEEF], [⟨false, 2⟩], [[0x61]]⟩ =
      .ok [0x01, 0, 0, 0, 0x02, 0, 0, 0, 0, 0, 0, 0, 0, 0, 0, 0,
        0xEF, 0xBE, 0xAD, 0xDE, 0, 0, 0, 0, 0x00, 0x02, 0x61, 0x00] := by
  decide

/-- Claim C3 counterexample: encoding the pure-ASCII string `"a"` does not
produce a `+1` length followed by the raw byte with no terminator; the
encoder emits length `2` and appends a NUL byte. -/
theorem fstringWrite_ascii_counterexample :
    fstringWrite ⟨[0x61]⟩ ≠ [0x01, 0, 0, 0, 0x61] := by decide

/-- Claim C3 as amended: for a string whose code points are all below
`U+0080` the encoder writes a signed 32-bit length equal to
`byte_count + 1`, the raw bytes, and one NUL byte; for any other string it
writes a signed 32-bit length equal to `-(2 * unit_count + 1)` where
`unit_count` counts the UTF-16 code units without a terminator, then the
units in little endian, then one single NUL byte (not a 16-bit unit). -/
theorem fstringWrite_layout (s : List Nat) (hlen : s.length < 2 ^ 32) :
    (isAsciiStr s = true → fstringWrite ⟨s⟩ = u32le (s.length + 1) ++ s ++ [0]) ∧
    (isAsciiStr s = false → fstringWrite ⟨s⟩ =
      i32le (-((2 * (utf16Encode s).length : Nat) + 1 : Int)) ++
        ((utf16Encode s).map u16le).flatten ++ [0]) := by
  constructor
  · intro h
    have he : utf8Encode s = s := utf8Encode_ascii s h
    have hb : utf8ByteLen s = s.length := by rw [utf8ByteLen, he]
    simp only [fstringWrite, if_pos h, hb, he, Nat.mod_eq_of_lt hlen,
      List.append_assoc]
  · intro h
    rw [show fstringWrite ⟨s⟩ = (if isAsciiStr s then
      u32le (utf8ByteLen s % 2 ^ 32 + 1) ++ utf8Encode s
      else i32le (-((2 * (utf16Encode s).length : Nat) + 1 : Int)) ++
        ((utf16Encode s).map u16le).flatten) ++ [0] from rfl]
    rw [if_neg (by rw [h]; exact Bool.false_ne_true)]

/-- Claim C3 witness: the amended layout evaluated on the concrete strings
`"a"` (ASCII) and `"é"` (wide). -/
theorem fstringWrite_layout_witness :
    fstringWrite ⟨[0x61]⟩ = u32le ([0x61].length + 1) ++ [0x61] ++ [0] ∧
    fstringWrite ⟨[0xE9]⟩ =
      i32le (-((2 * (utf16Encode [0xE9]).length : Nat) + 1 : Int)) ++
        ((utf16Encode [0xE9]).map u16le).flatten ++ [0] :=
  ⟨(fstringWrite_layout [0x61] (by decide)).1 (by decide),
   (fstringWrite_layout [0xE9] (by decide)).2 (by decide)⟩

/-- Claim C4 counterexample: the claim says that for a positive length `n`
the decoder reads exactly `n` payload bytes verbatim with no terminator
check, so the input `[02 00 00 00][61 61]` would decode to `"aa"`; the
decoder instead reads `n - 1` bytes and rejects the input because the final
byte is not NUL. -/
theorem fstringRead_verbatim_counterexample :
    fstringRead [0x02, 0, 0, 0, 0x61, 0x61] =
      .error (.msg "FString not NUL-terminated") := by decide

/-- Claim C4 as amended: after reading the signed 32-bit length `n`,
`n == 0` is an error; `n == i32::MIN` is an error (the wrapped magnitude
fails the parity test); for `n > 0` the decoder reads `n - 1` payload bytes,
demands one further NUL byte, and validates the payload as UTF-8; for
`n < 0` it reads `-n - 1` bytes as little-endian 16-bit units, demands one
further NUL byte, and validates the units as UTF-16. -/
theorem fstringRead_rules :
    (∀ rest : List Nat, fstringRead (0 :: 0 :: 0 :: 0 :: rest) =
      .error (.msg "FString length cannot be 0")) ∧
    (∀ rest : List Nat, fstringRead (0 :: 0 :: 0 :: 128 :: rest) =
      .error (.msg "len without NUL byte not a multiple of 2")) ∧
    (∀ (bs rest s : List Nat), bs.length + 1 < 2 ^ 31 → (∀ x ∈ bs, x < 256) →
      utf8Decode bs = .ok s →
      fstringRead (i32le ((bs.length : Int) + 1) ++ (bs ++ 0 :: rest)) =
        .ok (⟨s⟩, rest)) ∧
    (∀ (bs : List Nat) (c : Nat) (rest : List Nat), bs.length + 1 < 2 ^ 31 →
      (∀ x ∈ bs, x < 256) → c < 256 → c ≠ 0 →
      fstringRead (i32le ((bs.length : Int) + 1) ++ (bs ++ c :: rest)) =
        .error (.msg "FString not NUL-terminated")) ∧
    (∀ (us rest s : List Nat), 2 * us.length + 2 < 2 ^ 31 →
      (∀ u ∈ us, u < 65536) → utf16Decode us = .ok s →
      fstringRead (i32le (-((2 * us.length : Nat) + 1 : Int)) ++
        ((us.map u16le).flatten ++ 0 :: rest)) = .ok (⟨s⟩, rest)) := by
  refine ⟨fun rest => rfl, fun rest => rfl, ?_, ?_, ?_⟩
  · intro bs rest s h1 hb hu
    rw [fstringRead_pos bs rest h1 hb, hu]
    rfl
  · intro bs c rest h1 hb hc hnz
    exact fstringRead_pos_badterm bs c rest h1 hb hc hnz
  · intro us rest s h1 hu h16
    rw [fstringRead_neg us rest h1 hu, h16]
    rfl

/-- Claim C4 witness: the amended rules evaluated at concrete inputs: the
narrow payload `"ab"`, a narrow payload with a corrupt terminator, and the
wide payload `"a"`. -/
theorem fstringRead_rules_witness :
    fstringRead (i32le (([0x61, 0x62] : List Nat).length + 1) ++
      ([0x61, 0x62] ++ 0 :: [])) = .ok (⟨[0x61, 0x62]⟩, []) ∧
    fstringRead (i32le (([0x61] : List Nat).length + 1) ++
      ([0x61] ++ 9 :: [])) = .error (.msg "FString not NUL-terminated") ∧
    fstringRead (i32le (-((2 * ([0x61] : List Nat).length : Nat) + 1 : Int)) ++
      (([0x61].map u16le).flatten ++ 0 :: [])) = .ok (⟨[0x61]⟩, []) :=
  ⟨fstringRead_rules.2.2.1 [0x61, 0x62] [] [0x61, 0x62] (by decide)
      (by decide) (by decide),
   fstringRead_rules.2.2.2.1 [0x61] 9 [] (by decide) (by decide) (by decide)
      (by decide),
   fstringRead_rules.2.2.2.2 [0x61] [] [0x61] (by decide) (by decide)
      (by decide)⟩

/-- Claim C5 counterexample: with the offset table `[0, 5, 11]` and declared
total 11 the claim expects two strings of derived lengths 5 and 6, but the
decoder chains the declared total after the entire table, forming the pairs
`(0,5)`, `(5,11)` and `(11,11)`, and the final pair fails the strict-order
check, so decoding the claimed example errors even on the ANSI pool. -/
theorem storePool_offsets_counterexample :
    readAnsiPool [0, 5, 11] 11
      [97, 98, 99, 100, 0, 101, 102, 103, 104, 105, 0] =
      .error (.msg "offset ge next offset, ANSI string offset is bad") := by
  decide

/-- Claim C5 as amended: each offset is paired with its successor and the
declared total is appended as the final sentinel, so a pool of two strings
with derived lengths 5 and 6 under total 11 has the offset table `[0, 5]`;
the ANSI pool then extracts texts of lengths 4 and 5 (terminator counted in
the derived length but dropped from the text).  The table `[0, 0]` fails on
either pool; an offset exceeding the declared total makes either pool fail;
and the wide pool can never extract the `[0, 5]`-with-total-11 example
because the 6-byte range leaves 5 payload bytes, an odd number that is
rejected as UTF-16LE. -/
theorem storePool_offsets :
    (readAnsiPool [0, 5] 11 [97, 98, 99, 100, 0, 101, 102, 103, 104, 105, 0] =
      .ok ([[97, 98, 99, 100], [101, 102, 103, 104, 105]], [])) ∧
    (∀ (total : Nat) (input : List Nat), readAnsiPool [0, 0] total input =
      .error (.msg "offset ge next offset, ANSI string offset is bad")) ∧
    (∀ (total : Nat) (input : List Nat), readWidePool [0, 0] total input =
      .error (.msg "offset ge next offset, wide string offset is bad")) ∧
    (∀ (offsets : List Nat) (total : Nat) (input : List Nat) (o : Nat),
      o ∈ offsets → total < o →
      (readAnsiPool offsets total input).isOk = false) ∧
    (∀ (offsets : List Nat) (total : Nat) (input : List Nat) (o : Nat),
      o ∈ offsets → total < o →
      (readWidePool offsets total input).isOk = false) ∧
    (∀ input : List Nat, (readWidePool [0, 5] 11 input).isOk = false) := by
  refine ⟨by decide, ?_, ?_, ?_, ?_, ?_⟩
  · intro total input; rfl
  · intro total input; rfl
  · exact fun offsets total input o ho hover =>
      readAnsiPool_offset_over offsets total input o ho hover
  · exact fun offsets total input o ho hover =>
      readWidePool_offset_over offsets total input o ho hover
  · exact readWidePool_0_5_11_fails

/-- Claim C5 witness: the amended universal clauses evaluated at the
concrete table `[12]` with declared total 11. -/
theorem storePool_offsets_witness :
    (readAnsiPool [12] 11 []).isOk = false ∧
    (readWidePool [12] 11 []).isOk = false :=
  ⟨storePool_offsets.2.2.2.1 [12] 11 [] 12 (by simp) (by decide),
   storePool_offsets.2.2.2.2.1 [12] 11 [] 12 (by simp) (by decide)⟩

/-- Claim C6 (confirmed): whenever `NamesBatch` decoding succeeds, the sum
of the per-entry byte widths of the decoded headers is exactly the total
declared in the second `u32` field of the input.  By contraposition a batch
whose running byte sum ever exceeds the declared total, or whose final sum
misses it by as little as one byte in either direction, cannot decode
successfully. -/
theorem namesBatch_byte_accounting (input : List Nat) (b : NamesBatch)
    (rest : List Nat) (h : namesBatchRead input = .ok (b, rest)) :
    (readU32 (input.drop 4)).map Prod.fst =
      .ok ((b.headers.map SerializedNameHeader.n_bytes).sum) :=
  namesBatchRead_ok_sum input b rest h

/-- Claim C6 witness: the accounting theorem applied to the concrete
28-byte encoding of a one-entry batch, whose declared total is 2. -/
theorem namesBatch_byte_accounting_witness :
    (readU32 (([1, 0, 0, 0, 2, 0, 0, 0, 0, 0, 0, 0, 0, 0, 0, 0,
      239, 190, 173, 222, 0, 0, 0, 0, 0, 2, 97, 0] : List Nat).drop 4)).map
      Prod.fst = .ok 2 := by
  have h := namesBatch_byte_accounting
    [1, 0, 0, 0, 2, 0, 0, 0, 0, 0, 0, 0, 0, 0, 0, 0,
      239, 190, 173, 222, 0, 0, 0, 0, 0, 2, 97, 0]
    ⟨0, [0xDEADBEEF], [⟨false, 2⟩], [[97]]⟩ [] (by decide)
  simpa using h

/-- Claim C7 counterexample: a serialized pair whose packed value has low
3 bits equal to 7 (outside `{0,1,2}`) decodes successfully, contradicting
the claim that such a pair fails to decode. -/
theorem valueKind_no_validation_counterexample :
    fnumberedPairRead [0, 0, 0, 0, 0, 0, 0, 0, 0x07, 0, 0, 0] =
      .ok (⟨⟨0, 0⟩, 7⟩, []) := by decide

/-- Claim C7 as amended: pair decoding performs no validation of the packed
value reference at all; any 32-bit pattern is stored verbatim in the
decoded pair, whatever its low 3 bits hold. -/
theorem fnumberedPairRead_raw (a b v : Nat) (rest : List Nat)
    (ha : a < 2 ^ 32) (hb : b < 2 ^ 32) (hv : v < 2 ^ 32) :
    fnumberedPairRead (u32le a ++ (u32le b ++ (u32le v ++ rest))) =
      .ok (⟨⟨a, b⟩, v⟩, rest) := by
  simp only [fnumberedPairRead, fnameRead]
  rw [readU32_u32le a _ ha, bindOk]
  dsimp only
  rw [readU32_u32le b _ hb, bindOk]
  dsimp only
  rw [bindOk]
  dsimp only
  rw [readU32_u32le v _ hv, bindOk]

/-- Claim C7 witness: the raw-decoding theorem at a value whose low 3 bits
are 7. -/
theorem fnumberedPairRead_raw_witness :
    fnumberedPairRead (u32le 1 ++ (u32le 2 ++ (u32le 7 ++ []))) =
      .ok (⟨⟨1, 2⟩, 7⟩, []) :=
  fnumberedPairRead_raw 1 2 7 [] (by decide) (by decide) (by decide)

/-- Helper for claim C8: a narrow string of any length below `2^31` decodes
successfully when its payload is present, demonstrating that no 16 MiB cap
exists in `FString::read`. -/
theorem fstringRead_replicate (k : Nat) (rest : List Nat)
    (h : k + 1 < 2 ^ 31) :
    fstringRead (i32le ((k : Int) + 1) ++ (List.replicate k 97 ++ 0 :: rest)) =
      .ok (⟨List.replicate k 97⟩, rest) := by
  have hb : ∀ x ∈ List.replicate k 97, x < 256 := by
    intro x hx
    have := List.eq_of_mem_replicate hx
    omega
  have h8 := utf8Decode_ascii (List.replicate k 97) (by
    intro c hc
    have := List.eq_of_mem_replicate hc
    omega)
  have hlen : (List.replicate k 97).length = k := List.length_replicate k 97
  have hmain := fstringRead_pos (List.replicate k 97) rest
    (by rw [hlen]; omega) hb
  rw [h8] at hmain
  rw [hlen] at hmain
  exact hmain

/-- Claim C8 counterexample: the claim says every input whose length-field
magnitude exceeds 16 MiB is rejected, but a declared length of
`16777219` (16 MiB + 3) with its full payload present decodes
successfully; no bound is checked before the buffer is sized. -/
theorem fstring_no_16MiB_cap_counterexample :
    fstringRead (i32le ((16777218 : Nat) + 1) ++
      (List.replicate 16777218 97 ++ 0 :: [])) =
      .ok (⟨List.replicate 16777218 97⟩, []) := by
  have h := fstringRead_replicate 16777218 [] (by norm_num)
  exact_mod_cast h

/-- Claim C8 as amended: `FString::read` enforces no maximum decodable
byte count at all; for every length below `2^31` the decoder sizes its
buffer directly from the length field and succeeds whenever the payload
bytes are present and well formed. -/
theorem fstring_no_cap (k : Nat) (rest : List Nat) (h : k + 1 < 2 ^ 31) :
    fstringRead (i32le ((k : Int) + 1) ++ (List.replicate k 97 ++ 0 :: rest)) =
      .ok (⟨List.replicate k 97⟩, rest) :=
  fstringRead_replicate k rest h

/-- Claim C8 witness: the uncapped decoding theorem at the small length 2. -/
theorem fstring_no_cap_witness :
    fstringRead (i32le ((1 : Nat) + 1) ++ (List.replicate 1 97 ++ 0 :: [])) =
      .ok (⟨List.replicate 1 97⟩, []) :=
  fstring_no_cap 1 [] (by decide)

/-- Claim C9 counterexample: encoding the versioned header does not emit
the 16-byte GUID once followed by the `u32` version (20 bytes); the header
writes the GUID itself and then delegates to the version record, which
writes the same GUID again, so the output is 36 bytes long. -/
theorem header_guid_once_counterexample :
    assetRegistryHeaderWrite ⟨.AssetPackageDataHasExtension⟩ ≠
      versionGuid ++ u32le 17 ∧
    (assetRegistryHeaderWrite ⟨.AssetPackageDataHasExtension⟩).length = 36 := by
  decide

/-- Claim C9 as amended: encoding a versioned header emits the 16-byte GUID
constant twice — once from the header record and once from the nested
version record — followed by the version ordinal as a little-endian `u32`
(36 bytes in total); decoding consumes exactly that layout and fails with a
GUID mismatch whenever the leading 16 bytes differ from the constant. -/
theorem header_layout :
    (∀ v : AssetRegistryVersion, assetRegistryHeaderWrite ⟨v⟩ =
      versionGuid ++ (versionGuid ++ u32le v.toNum)) ∧
    (∀ (v : AssetRegistryVersion) (rest : List Nat),
      assetRegistryHeaderRead (assetRegistryHeaderWrite ⟨v⟩ ++ rest) =
        .ok (⟨v⟩, rest)) ∧
    (∀ (g rest : List Nat), g.length = 16 → (∀ x ∈ g, x < 256) →
      g ≠ versionGuid →
      assetRegistryHeaderRead (g ++ rest) = .error (.msg "invalid guid")) := by
  refine ⟨fun v => rfl, ?_, ?_⟩
  · intro v rest
    have hg : ∀ x ∈ versionGuid, x < 256 := by decide
    have hgl : versionGuid.length = 16 := by decide
    have hx1 : readExact 16
        (versionGuid ++ (versionGuid ++ (u32le v.toNum ++ rest))) =
        .ok (versionGuid, versionGuid ++ (u32le v.toNum ++ rest)) := by
      have := readExact_append versionGuid
        (versionGuid ++ (u32le v.toNum ++ rest)) hg
      rwa [hgl] at this
    have hx2 : readExact 16 (versionGuid ++ (u32le v.toNum ++ rest)) =
        .ok (versionGuid, u32le v.toNum ++ rest) := by
      have := readExact_append versionGuid (u32le v.toNum ++ rest) hg
      rwa [hgl] at this
    have hu := readU32_u32le v.toNum rest (versionToNum_lt v)
    rw [show assetRegistryHeaderWrite ⟨v⟩ ++ rest =
      versionGuid ++ (versionGuid ++ (u32le v.toNum ++ rest)) by
        simp [assetRegistryHeaderWrite, assetRegistryVersionWrite]]
    simp only [assetRegistryHeaderRead, assetRegistryVersionRead, hx1, hx2,
      hu, bindOk, ne_eq, not_true_eq_false, if_false, ite_false,
      versionOfNum_toNum v]
  · intro g rest h16 hb hne
    have hx : readExact 16 (g ++ rest) = .ok (g, rest) := by
      have := readExact_append g rest hb
      rwa [h16] at this
    simp only [assetRegistryHeaderRead, hx, bindOk, ne_eq]
    rw [if_pos hne]

/-- Claim C9 witness: the header layout theorem at the `FixedTags` version
and at a 16-byte block of zeros in place of the GUID. -/
theorem header_layout_witness :
    assetRegistryHeaderRead (assetRegistryHeaderWrite ⟨.FixedTags⟩ ++ []) =
      .ok (⟨.FixedTags⟩, []) ∧
    assetRegistryHeaderRead (List.replicate 16 0 ++ []) =
      .error (.msg "invalid guid") :=
  ⟨header_layout.2.1 .FixedTags [],
   header_layout.2.2 (List.replicate 16 0) [] (by decide) (by decide)
     (by decide)⟩

/-- Claim C10 (code bug): decoding an `FText` whose `u32` length prefix is
zero does not return an error; `FText::read` calls `buf.last().unwrap()` on
the empty buffer and panics, modelled here as the `panicked` outcome. -/
theorem ftextRead_zero_len_panics :
    ftextRead [0, 0, 0, 0] = .error .panicked := by decide

end AssetReg
